import Mathlib

/-!
Verification of the software (bit-banged) SPI master of `BW_SPI_V1.00.py`.

The embedding follows the source closely:
* the four half-cycle sequences are built exactly as the Python string
  templates `SEL_SQ`, `CLK_S0/S1`, `DTO_S0/S1`, `TRG_S0/S1` build them,
  with `true` standing for the character `1` (level high) and `false`
  for `0` (level low);
* `f"{data:0{w}b}"` (binary text of `data`, zero-padded to width `w`,
  most significant bit first) is modelled by `pyBinPad`;
* the transfer loop `for SEL, CLK, DTO, TRG in zip(...)` is modelled by
  `transferLoop` over `zip4` (Python's `zip` truncates to the shortest
  input, and so does `zip4`); each iteration writes MOSI, then SCK, then
  CS, then reads MISO, and appends the read level to the accumulator
  when the trigger is set;
* `int("".join(DATA), 2)` is modelled by `bitsToNat`, with `none` for
  the `ValueError` raised on an empty digit string;
* the module-level debug machinery `_debug` / `_DEBUG` is modelled by
  `debugWith` / `DEBUG_DEFAULT`;
* a port whose write/read operations can fail is modelled by
  `transferFailLoop`, which counts the primitive pin operations in
  program order and aborts at a chosen operation index, returning the
  pin levels that were in force at that moment (the source has no
  exception handler, so the levels are simply left as they are).
-/

/-- State of the three driven lines of the port (MOSI, SCK, CS).
`true` is level high, `false` is level low. -/
structure PortState where
  mosi : Bool
  sck : Bool
  cs : Bool
deriving DecidableEq, Repr

/-- Binary digits of `n`, most significant first, empty for `0`;
fuel-driven so that it reduces structurally. -/
def natBitsAux : Nat → Nat → List Bool
  | 0, _ => []
  | _ + 1, 0 => []
  | f + 1, n + 1 => natBitsAux f ((n + 1) / 2) ++ [decide ((n + 1) % 2 = 1)]

/-- Binary digits of `n`, most significant first (`[]` for `0`). -/
def natBits (n : Nat) : List Bool := natBitsAux n n

/-- The digits Python prints for `n` in binary: at least one digit. -/
def pyBinDigits (n : Nat) : List Bool :=
  if n = 0 then [false] else natBits n

/-- `f"{n:0{w}b}"`: binary digits of `n` zero-padded on the left to
width `w` (kept longer when `n` needs more than `w` digits). -/
def pyBinPad (n w : Nat) : List Bool :=
  List.replicate (w - (pyBinDigits n).length) false ++ pyBinDigits n

/-- `int("".join(bits), 2)` on a nonempty digit list: the value of the
digits read most significant first. -/
def bitsToNat (bs : List Bool) : Nat :=
  bs.foldl (fun a b => 2 * a + (if b then 1 else 0)) 0

/-- `SEL_SQ = f"1{w*'00'}01"`: the chip-select sequence. -/
def SEL_SQ (w : Nat) : List Bool :=
  [true] ++ (List.replicate w [false, false]).flatten ++ [false, true]

/-- `CLK_S0 = f"0{w*'01'}00"`: clock levels for CPOL 0. -/
def CLK_S0 (w : Nat) : List Bool :=
  [false] ++ (List.replicate w [false, true]).flatten ++ [false, false]

/-- `CLK_S1 = f"1{w*'10'}11"`: clock levels for CPOL 1. -/
def CLK_S1 (w : Nat) : List Bool :=
  [true] ++ (List.replicate w [true, false]).flatten ++ [true, true]

/-- `DTO = "".join([f"{c}{c}" for c in f"{data:{FS}}"])`: each binary
digit of the output word doubled. -/
def DTO_str (data w : Nat) : List Bool :=
  ((pyBinPad data w).map (fun c => [c, c])).flatten

/-- `DTO_S0 = f"0{DTO}00"`: data levels for CPHA 0. -/
def DTO_S0 (data w : Nat) : List Bool :=
  [false] ++ DTO_str data w ++ [false, false]

/-- `DTO_S1 = f"00{DTO}0"`: data levels for CPHA 1. -/
def DTO_S1 (data w : Nat) : List Bool :=
  [false, false] ++ DTO_str data w ++ [false]

/-- `TRG = f"{w*'01'}"`: the raw read-trigger pattern. -/
def TRG (w : Nat) : List Bool := (List.replicate w [false, true]).flatten

/-- `TRG_S0 = f"0{TRG}00"`: record triggers for CPHA 0. -/
def TRG_S0 (w : Nat) : List Bool := [false] ++ TRG w ++ [false, false]

/-- `TRG_S1 = f"00{TRG}0"`: record triggers for CPHA 1. -/
def TRG_S1 (w : Nat) : List Bool := [false, false] ++ TRG w ++ [false]

/-- `CLK_SQ = [CLK_S0, CLK_S1][self.CPOL]`. -/
def CLK_SQ (cpol : Bool) (w : Nat) : List Bool :=
  if cpol then CLK_S1 w else CLK_S0 w

/-- `DTO_SQ = [DTO_S0, DTO_S1][self.CPHA]`. -/
def DTO_SQ (cpha : Bool) (data w : Nat) : List Bool :=
  if cpha then DTO_S1 data w else DTO_S0 data w

/-- `TRG_SQ = [TRG_S0, TRG_S1][self.CPHA]`. -/
def TRG_SQ (cpha : Bool) (w : Nat) : List Bool :=
  if cpha then TRG_S1 w else TRG_S0 w

/-- Python's 4-ary `zip`: truncates to the shortest input. -/
def zip4 {α β γ δ : Type} :
    List α → List β → List γ → List δ → List (α × β × γ × δ)
  | a :: as, b :: bs, c :: cs, d :: ds => (a, b, c, d) :: zip4 as bs cs ds
  | _, _, _, _ => []

/-- One pass of the transfer loop: at each half-cycle the engine writes
MOSI (the data-out level), then SCK, then CS, then reads MISO through
`read` (a function of the just-written line levels and of the
half-cycle index), appending the read level to the accumulator when the
trigger is set.  Returns the accumulator and the final line levels. -/
def transferLoop (read : PortState → Nat → Bool) :
    List (Bool × Bool × Bool × Bool) → Nat → PortState → List Bool →
    List Bool × PortState
  | [], _, st, acc => (acc, st)
  | (sel, clk, dto, trg) :: rest, i, _, acc =>
    let st1 : PortState := ⟨dto, clk, sel⟩
    let lvl := read st1 i
    transferLoop read rest (i + 1) st1 (if trg then acc ++ [lvl] else acc)

/-- `spi.transfer`: synthesize the four sequences, replay them against
the port, and parse the recorded levels as a binary number
(`none` models the `ValueError` of `int("", 2)`). -/
def transfer (cpol cpha : Bool) (w data : Nat)
    (read : PortState → Nat → Bool) (st0 : PortState) :
    Option Nat × PortState :=
  let sq := zip4 (SEL_SQ w) (CLK_SQ cpol w) (DTO_SQ cpha data w) (TRG_SQ cpha w)
  let out := transferLoop read sq 0 st0 []
  (if out.1.isEmpty then none else some (bitsToNat out.1), out.2)

/-- A loopback port: MISO is wired to MOSI, so a read returns the level
most recently written to the data-out line. -/
def loopbackRead (st : PortState) (_ : Nat) : Bool := st.mosi

/-- The transfer loop over a fallible port.  The primitive pin
operations are counted in program order (three writes then one read per
half-cycle); the operation numbered `failAt` raises, and the error
carries the line levels in force at that moment — the source installs
no handler, so nothing is written after the failure. -/
def transferFailLoop (read : PortState → Nat → Bool) (failAt : Nat) :
    List (Bool × Bool × Bool × Bool) → Nat → Nat → PortState → List Bool →
    Except PortState (List Bool × PortState)
  | [], _, _, st, acc => .ok (acc, st)
  | (sel, clk, dto, trg) :: rest, i, ops, st, acc =>
    if ops = failAt then .error st else
    let st1 : PortState := ⟨dto, st.sck, st.cs⟩
    if ops + 1 = failAt then .error st1 else
    let st2 : PortState := ⟨dto, clk, st.cs⟩
    if ops + 2 = failAt then .error st2 else
    let st3 : PortState := ⟨dto, clk, sel⟩
    if ops + 3 = failAt then .error st3 else
    let lvl := read st3 i
    transferFailLoop read failAt rest (i + 1) (ops + 4) st3
      (if trg then acc ++ [lvl] else acc)

/-- `spi.transfer` against a fallible port. -/
def transferFail (cpol cpha : Bool) (w data : Nat)
    (read : PortState → Nat → Bool) (failAt : Nat) (st0 : PortState) :
    Except PortState (Option Nat × PortState) :=
  let sq := zip4 (SEL_SQ w) (CLK_SQ cpol w) (DTO_SQ cpha data w) (TRG_SQ cpha w)
  match transferFailLoop read failAt sq 0 0 st0 [] with
  | .error st => .error st
  | .ok (acc, st) =>
    .ok (if acc.isEmpty then none else some (bitsToNat acc), st)

/-- The chip-select level the error carries, when the run failed. -/
def csOnError {α : Type} : Except PortState α → Option Bool
  | .error st => some st.cs
  | .ok _ => none

/-- The module-level `_DEBUG` list as shipped (only `"NONE"` active). -/
def DEBUG_DEFAULT : List String := ["NONE"]

/-- `_debug(*flags)` as a function of the module `_DEBUG` list:
`"NONE"` wins, then `"ALL"`, then a member test over the arguments,
then nonempty argument lists fail, and an empty call succeeds. -/
def debugWith (dbg flags : List String) : Bool :=
  if dbg.contains "NONE" then false
  else if dbg.contains "ALL" then true
  else if flags.any (fun f => dbg.contains f) then true
  else if !flags.isEmpty then false
  else true

/-- Number of `wait` calls a transfer performs: the loop waits once per
half-cycle exactly when `_debug("DELAY")` holds. -/
def transferDelayCount (dbg : List String) (cpol cpha : Bool)
    (w data : Nat) : Nat :=
  if debugWith dbg ["DELAY"] then
    (zip4 (SEL_SQ w) (CLK_SQ cpol w) (DTO_SQ cpha data w) (TRG_SQ cpha w)).length
  else 0

/-- Whether a transfer prints anything: the post-loop diagnostics are
guarded by `_debug("TRANSFER")` and `_debug("TRACE")`. -/
def transferPrints (dbg : List String) : Bool :=
  debugWith dbg ["TRANSFER"] || debugWith dbg ["TRACE"]

/-! ### Basic facts about the building blocks -/

theorem flatten_replicate_pair_succ (a b : α) (m : Nat) :
    (List.replicate (m + 1) [a, b]).flatten =
      a :: b :: (List.replicate m [a, b]).flatten := rfl

theorem flatten_replicate_pair_length (a b : α) :
    ∀ m : Nat, ((List.replicate m [a, b]).flatten).length = 2 * m
  | 0 => rfl
  | m + 1 => by
    rw [flatten_replicate_pair_succ]
    simp only [List.length_cons, flatten_replicate_pair_length a b m]
    omega

theorem flatten_replicate_pair_rot (a b : α) :
    ∀ m : Nat, a :: ((List.replicate m [b, a]).flatten ++ [b]) =
      (List.replicate (m + 1) [a, b]).flatten
  | 0 => rfl
  | m + 1 => by
    have ih := flatten_replicate_pair_rot a b m
    show a :: ((b :: a :: (List.replicate m [b, a]).flatten) ++ [b]) =
      a :: b :: (List.replicate (m + 1) [a, b]).flatten
    rw [List.cons_append, List.cons_append, ih]

theorem flatten_replicate_pair_getElem (a b : α) :
    ∀ (m i : Nat), ((List.replicate m [a, b]).flatten)[i]? =
      if i < 2 * m then some (if i % 2 = 0 then a else b) else none
  | 0, i => by simp
  | m + 1, 0 => by
    rw [flatten_replicate_pair_succ]
    have h : (0 : Nat) < 2 * (m + 1) := by omega
    simp [h]
  | m + 1, 1 => by
    rw [flatten_replicate_pair_succ]
    have h : (1 : Nat) < 2 * (m + 1) := by omega
    simp [h]
  | m + 1, i + 2 => by
    have ih := flatten_replicate_pair_getElem a b m i
    rw [flatten_replicate_pair_succ]
    have e1 : i + 2 = (i + 1) + 1 := rfl
    rw [e1]
    simp only [List.getElem?_cons_succ]
    rw [ih]
    have h2 : ((i + 1) + 1) % 2 = i % 2 := by omega
    rw [h2]
    by_cases h : i < 2 * m
    · have h4 : (i + 1) + 1 < 2 * (m + 1) := by omega
      simp [h, h4]
    · have h4 : ¬ ((i + 1) + 1 < 2 * (m + 1)) := by omega
      simp [h, h4]

theorem TRG_flatten_count :
    ∀ m : Nat, ((List.replicate m [false, true]).flatten).count true = m
  | 0 => rfl
  | m + 1 => by
    rw [flatten_replicate_pair_succ]
    simp [TRG_flatten_count m]

theorem flatten_map_dup_length (bs : List Bool) :
    ((bs.map (fun c => [c, c])).flatten).length = 2 * bs.length := by
  induction bs with
  | nil => rfl
  | cons c bs ih =>
    simp only [List.map_cons, List.flatten_cons, List.cons_append,
      List.nil_append, List.length_cons, ih, List.length_append]
    omega

theorem flatten_map_dup_getElem :
    ∀ (bs : List Bool) (j : Nat),
      ((bs.map (fun c => [c, c])).flatten)[2 * j]? = bs[j]? ∧
      ((bs.map (fun c => [c, c])).flatten)[2 * j + 1]? = bs[j]?
  | [], j => by simp
  | c :: bs, 0 => by simp
  | c :: bs, j + 1 => by
    have ih := flatten_map_dup_getElem bs j
    have h1 : ((c :: bs).map (fun c => [c, c])).flatten =
        c :: c :: ((bs.map (fun c => [c, c])).flatten) := by simp
    have e1 : 2 * (j + 1) = (2 * j + 1) + 1 := by omega
    have e2 : 2 * (j + 1) + 1 = ((2 * j + 1) + 1) + 1 := by omega
    constructor
    · rw [h1, e1]
      simp only [List.getElem?_cons_succ]
      exact ih.1
    · rw [h1, e2]
      simp only [List.getElem?_cons_succ]
      exact ih.2

theorem bitsToNat_append_singleton (bs : List Bool) (b : Bool) :
    bitsToNat (bs ++ [b]) = 2 * bitsToNat bs + (if b then 1 else 0) := by
  simp [bitsToNat, List.foldl_append]

theorem bitsToNat_lt (bs : List Bool) : bitsToNat bs < 2 ^ bs.length := by
  induction bs using List.reverseRecOn with
  | nil => simp [bitsToNat]
  | append_singleton bs b ih =>
    rw [bitsToNat_append_singleton]
    have hl : (bs ++ [b]).length = bs.length + 1 := by simp
    rw [hl]
    have h2 : 2 ^ (bs.length + 1) = 2 * 2 ^ bs.length := by ring
    rw [h2]
    cases b
    · simp only [Bool.false_eq_true, if_false]
      omega
    · simp only [if_true]
      omega

theorem bitsToNat_replicate_false (k : Nat) (bs : List Bool) :
    bitsToNat (List.replicate k false ++ bs) = bitsToNat bs := by
  induction k with
  | zero => rfl
  | succ k ih =>
    rw [List.replicate_succ]
    simpa [bitsToNat] using ih

theorem bitsToNat_getElem :
    ∀ (bs : List Bool) (j : Nat), j < bs.length →
      bs[j]? = some ((bitsToNat bs).testBit (bs.length - 1 - j)) := by
  intro bs
  induction bs using List.reverseRecOn with
  | nil => intro j h; simp at h
  | append_singleton bs b ih =>
    intro j hj
    rw [bitsToNat_append_singleton]
    rcases Nat.lt_or_ge j bs.length with h | h
    · rw [List.getElem?_append_left h, ih j h]
      have hlen : (bs ++ [b]).length - 1 - j = (bs.length - 1 - j) + 1 := by
        simp only [List.length_append, List.length_cons, List.length_nil]
        omega
      rw [hlen, Nat.testBit_add_one]
      have hdiv : (2 * bitsToNat bs + (if b then 1 else 0)) / 2 = bitsToNat bs := by
        cases b
        · simp only [Bool.false_eq_true, if_false]
          omega
        · simp only [if_true]
          omega
      rw [hdiv]
    · have hj2 : j = bs.length := by
        simp only [List.length_append, List.length_cons, List.length_nil] at hj
        omega
      subst hj2
      rw [List.getElem?_concat_length]
      have hlen : (bs ++ [b]).length - 1 - bs.length = 0 := by
        simp only [List.length_append, List.length_cons, List.length_nil]
        omega
      rw [hlen, Nat.testBit_zero]
      have hmod : (2 * bitsToNat bs + (if b then 1 else 0)) % 2 =
          (if b then 1 else 0) := by
        cases b
        · simp only [Bool.false_eq_true, if_false]
          omega
        · simp only [if_true]
          omega
      rw [hmod]
      cases b
      · simp
      · simp

/-! ### The binary rendering `f"{n:0{w}b}"` -/

theorem natBitsAux_fuel :
    ∀ (n f g : Nat), n ≤ f → n ≤ g → natBitsAux f n = natBitsAux g n := by
  intro n
  induction n using Nat.strong_induction_on with
  | _ n ih =>
    intro f g hf hg
    match n, f, g with
    | 0, 0, 0 => rfl
    | 0, 0, _ + 1 => rfl
    | 0, _ + 1, 0 => rfl
    | 0, _ + 1, _ + 1 => rfl
    | n + 1, f + 1, g + 1 =>
      show natBitsAux f ((n + 1) / 2) ++ _ = natBitsAux g ((n + 1) / 2) ++ _
      rw [ih ((n + 1) / 2) (by omega) f g (by omega) (by omega)]

theorem natBits_succ (n : Nat) :
    natBits (n + 1) = natBits ((n + 1) / 2) ++ [decide ((n + 1) % 2 = 1)] := by
  show natBitsAux n ((n + 1) / 2) ++ _ = natBitsAux ((n + 1) / 2) ((n + 1) / 2) ++ _
  rw [natBitsAux_fuel ((n + 1) / 2) n ((n + 1) / 2) (by omega) (by omega)]

theorem bitsToNat_natBits (n : Nat) : bitsToNat (natBits n) = n := by
  induction n using Nat.strong_induction_on with
  | _ n ih =>
    match n with
    | 0 => rfl
    | n + 1 =>
      rw [natBits_succ, bitsToNat_append_singleton,
        ih ((n + 1) / 2) (by omega)]
      have h : (if decide ((n + 1) % 2 = 1) then 1 else 0) = (n + 1) % 2 := by
        rcases Nat.mod_two_eq_zero_or_one (n + 1) with h | h
        · simp [h]
        · simp [h]
      rw [h]
      omega

theorem natBits_length_le :
    ∀ (n k : Nat), n < 2 ^ k → (natBits n).length ≤ k := by
  intro n
  induction n using Nat.strong_induction_on with
  | _ n ih =>
    intro k hk
    match n with
    | 0 => show ([] : List Bool).length ≤ k; simp
    | n + 1 =>
      rw [natBits_succ]
      match k with
      | 0 => omega
      | k + 1 =>
        have h1 : (n + 1) / 2 < 2 ^ k := by
          have h2 : 2 ^ (k + 1) = 2 ^ k * 2 := by ring
          rw [h2] at hk
          omega
        have h3 := ih ((n + 1) / 2) (by omega) k h1
        simp only [List.length_append, List.length_cons, List.length_nil]
        omega

theorem bitsToNat_pyBinDigits (n : Nat) : bitsToNat (pyBinDigits n) = n := by
  unfold pyBinDigits
  by_cases h : n = 0
  · subst h; simp; rfl
  · simp only [h, if_false]
    exact bitsToNat_natBits n

theorem pyBinDigits_length_le (n w : Nat) (hw : 1 ≤ w) (hn : n < 2 ^ w) :
    (pyBinDigits n).length ≤ w := by
  unfold pyBinDigits
  by_cases h : n = 0
  · subst h; simpa using hw
  · simp only [h, if_false]
    exact natBits_length_le n w hn

theorem pyBinDigits_length_pos (n : Nat) : 1 ≤ (pyBinDigits n).length := by
  unfold pyBinDigits
  by_cases h : n = 0
  · subst h; simp
  · simp only [h, if_false]
    match n, h with
    | n + 1, _ =>
      rw [natBits_succ]
      simp

theorem pyBinPad_length (n w : Nat) (hw : 1 ≤ w) (hn : n < 2 ^ w) :
    (pyBinPad n w).length = w := by
  unfold pyBinPad
  have h := pyBinDigits_length_le n w hw hn
  simp only [List.length_append, List.length_replicate]
  omega

theorem bitsToNat_pyBinPad (n w : Nat) : bitsToNat (pyBinPad n w) = n := by
  unfold pyBinPad
  rw [bitsToNat_replicate_false, bitsToNat_pyBinDigits]

theorem pyBinPad_getElem (n w : Nat) (hw : 1 ≤ w) (hn : n < 2 ^ w) :
    ∀ j, j < w → (pyBinPad n w)[j]? = some (n.testBit (w - 1 - j)) := by
  intro j hj
  have hlen := pyBinPad_length n w hw hn
  have hval := bitsToNat_pyBinPad n w
  have h := bitsToNat_getElem (pyBinPad n w) j (by rw [hlen]; exact hj)
  rw [hlen, hval] at h
  exact h

/-! ### Decomposing the zipped sequence and the transfer loop -/

theorem CLK_SQ_eq (cpol : Bool) (w : Nat) :
    CLK_SQ cpol w =
      [cpol] ++ (List.replicate w [cpol, !cpol]).flatten ++ [cpol, cpol] := by
  cases cpol
  · rfl
  · rfl

theorem zip4_mid (q1 q2 : Bool) :
    ∀ (bits s1 s2 s3 s4 : List Bool),
      zip4 ((List.replicate bits.length [false, false]).flatten ++ s1)
        ((List.replicate bits.length [q1, q2]).flatten ++ s2)
        ((bits.map (fun c => [c, c])).flatten ++ s3)
        ((List.replicate bits.length [false, true]).flatten ++ s4)
      = (bits.map (fun b => [(false, q1, b, false), (false, q2, b, true)])).flatten
          ++ zip4 s1 s2 s3 s4
  | [], s1, s2, s3, s4 => rfl
  | b :: bits, s1, s2, s3, s4 => by
    have ih := zip4_mid q1 q2 bits s1 s2 s3 s4
    show (false, q1, b, false) :: (false, q2, b, true) ::
        zip4 ((List.replicate bits.length [false, false]).flatten ++ s1)
          ((List.replicate bits.length [q1, q2]).flatten ++ s2)
          ((bits.map (fun c => [c, c])).flatten ++ s3)
          ((List.replicate bits.length [false, true]).flatten ++ s4)
      = (false, q1, b, false) :: (false, q2, b, true) ::
        ((bits.map (fun b => [(false, q1, b, false), (false, q2, b, true)])).flatten
          ++ zip4 s1 s2 s3 s4)
    rw [ih]

theorem transferLoop_append (read : PortState → Nat → Bool) :
    ∀ (l1 l2 : List (Bool × Bool × Bool × Bool)) (i : Nat) (st : PortState)
      (acc : List Bool),
      transferLoop read (l1 ++ l2) i st acc =
        transferLoop read l2 (i + l1.length)
          (transferLoop read l1 i st acc).2 (transferLoop read l1 i st acc).1
  | [], _, _, _, _ => rfl
  | (sel, clk, dto, trg) :: l1, l2, i, st, acc => by
    show transferLoop read (l1 ++ l2) (i + 1) ⟨dto, clk, sel⟩
        (if trg then acc ++ [read ⟨dto, clk, sel⟩ i] else acc) = _
    rw [transferLoop_append read l1 l2 (i + 1) ⟨dto, clk, sel⟩
      (if trg then acc ++ [read ⟨dto, clk, sel⟩ i] else acc)]
    have h : i + 1 + l1.length = i + (l1.length + 1) := by omega
    rw [h]
    rfl

theorem transferLoop_mid_loopback (q1 q2 : Bool) :
    ∀ (bits : List Bool) (i : Nat) (st : PortState) (acc : List Bool),
      ∃ st2, transferLoop loopbackRead
        ((bits.map (fun b => [(false, q1, b, false), (false, q2, b, true)])).flatten)
        i st acc = (acc ++ bits, st2)
  | [], i, st, acc => ⟨st, by simp [transferLoop]⟩
  | b :: bits, i, st, acc => by
    obtain ⟨st2, h⟩ := transferLoop_mid_loopback q1 q2 bits (i + 1 + 1)
      ⟨b, q2, false⟩ (acc ++ [b])
    refine ⟨st2, ?_⟩
    show transferLoop loopbackRead
        ((bits.map (fun b => [(false, q1, b, false), (false, q2, b, true)])).flatten)
        (i + 1 + 1) ⟨b, q2, false⟩ (acc ++ [b]) = (acc ++ b :: bits, st2)
    rw [h, List.append_assoc]
    rfl

theorem transferLoop_mid_reads (q1 q2 : Bool) (ins : Nat → Bool) :
    ∀ (bits : List Bool) (i : Nat) (st : PortState) (acc : List Bool),
      ∃ st2, transferLoop (fun _ j => ins j)
        ((bits.map (fun b => [(false, q1, b, false), (false, q2, b, true)])).flatten)
        i st acc =
        (acc ++ (List.range bits.length).map (fun k => ins (i + 2 * k + 1)), st2)
  | [], i, st, acc => ⟨st, by simp [transferLoop]⟩
  | b :: bits, i, st, acc => by
    obtain ⟨st2, h⟩ := transferLoop_mid_reads q1 q2 ins bits (i + 1 + 1)
      ⟨b, q2, false⟩ (acc ++ [ins (i + 1)])
    refine ⟨st2, ?_⟩
    show transferLoop (fun _ j => ins j)
        ((bits.map (fun b => [(false, q1, b, false), (false, q2, b, true)])).flatten)
        (i + 1 + 1) ⟨b, q2, false⟩ (acc ++ [ins (i + 1)]) =
      (acc ++ (List.range (bits.length + 1)).map (fun k => ins (i + 2 * k + 1)), st2)
    rw [h, List.append_assoc]
    have hr : (List.range (bits.length + 1)).map (fun k => ins (i + 2 * k + 1)) =
        ins (i + 1) :: (List.range bits.length).map
          (fun k => ins (i + 1 + 1 + 2 * k + 1)) := by
      rw [List.range_succ_eq_map, List.map_cons, List.map_map]
      have h0 : i + 2 * 0 + 1 = i + 1 := by omega
      rw [h0]
      have h1 : (List.range bits.length).map
            ((fun k => ins (i + 2 * k + 1)) ∘ Nat.succ) =
          (List.range bits.length).map (fun k => ins (i + 1 + 1 + 2 * k + 1)) := by
        apply List.map_congr_left
        intro k _
        show ins (i + 2 * (k + 1) + 1) = ins (i + 1 + 1 + 2 * k + 1)
        congr 1
        omega
      rw [h1]
    rw [hr]
    rfl

theorem transferLoop_no_trigger (read : PortState → Nat → Bool) :
    ∀ (l : List (Bool × Bool × Bool × Bool)), (∀ t ∈ l, t.2.2.2 = false) →
      ∀ (i : Nat) (st : PortState) (acc : List Bool),
        (transferLoop read l i st acc).1 = acc
  | [], _, _, _, _ => rfl
  | (sel, clk, dto, trg) :: l, h, i, st, acc => by
    have htrg : trg = false := h (sel, clk, dto, trg) (List.mem_cons_self _ _)
    subst htrg
    show (transferLoop read l (i + 1) ⟨dto, clk, sel⟩
      (if false then acc ++ [read ⟨dto, clk, sel⟩ i] else acc)).1 = acc
    exact transferLoop_no_trigger read l
      (fun t ht => h t (List.mem_cons_of_mem _ ht)) (i + 1) ⟨dto, clk, sel⟩ acc

theorem cons_pad_reshape (a b c : α) (m : Nat) :
    a :: ((List.replicate m [b, a]).flatten ++ [b, c]) =
      (List.replicate (m + 1) [a, b]).flatten ++ [c] := by
  have h1 : (List.replicate m [b, a]).flatten ++ [b, c] =
      ((List.replicate m [b, a]).flatten ++ [b]) ++ [c] := by
    rw [List.append_assoc]
    rfl
  rw [h1]
  show (a :: ((List.replicate m [b, a]).flatten ++ [b])) ++ [c] = _
  rw [flatten_replicate_pair_rot]

theorem zip4_cons (a1 b1 c1 d1 : Bool) (l1 l2 l3 l4 : List Bool) :
    zip4 (a1 :: l1) (b1 :: l2) (c1 :: l3) (d1 :: l4) =
      (a1, b1, c1, d1) :: zip4 l1 l2 l3 l4 := rfl

theorem zip4_seqs_cpha0 (p : Bool) (data w : Nat)
    (h : (pyBinPad data w).length = w) :
    zip4 (SEL_SQ w) (CLK_SQ p w) (DTO_SQ false data w) (TRG_SQ false w) =
      (true, p, false, false) ::
        (((pyBinPad data w).map
            (fun b => [(false, p, b, false), (false, !p, b, true)])).flatten ++
          [(false, p, false, false), (true, p, false, false)]) := by
  have e1 : SEL_SQ w =
      true :: ((List.replicate w [false, false]).flatten ++ [false, true]) := rfl
  have e2 : CLK_SQ p w =
      p :: ((List.replicate w [p, !p]).flatten ++ [p, p]) := by
    rw [CLK_SQ_eq]
    rfl
  have e3 : DTO_SQ false data w = false ::
      (((pyBinPad data w).map (fun c => [c, c])).flatten ++ [false, false]) := rfl
  have e4 : TRG_SQ false w = false ::
      ((List.replicate w [false, true]).flatten ++ [false, false]) := rfl
  rw [e1, e2, e3, e4, zip4_cons]
  generalize hbits : pyBinPad data w = bits at h ⊢
  rw [← h, zip4_mid p (!p) bits [false, true] [p, p] [false, false] [false, false]]
  rfl

theorem zip4_seqs_cpha1 (p : Bool) (data m : Nat)
    (h : (pyBinPad data (m + 1)).length = m + 1) :
    zip4 (SEL_SQ (m + 1)) (CLK_SQ p (m + 1)) (DTO_SQ true data (m + 1))
      (TRG_SQ true (m + 1)) =
      (true, p, false, false) :: (false, p, false, false) ::
        (((pyBinPad data (m + 1)).map
            (fun b => [(false, !p, b, false), (false, p, b, true)])).flatten ++
          [(true, p, false, false)]) := by
  have e0 : SEL_SQ (m + 1) = true :: false ::
      (false :: ((List.replicate m [false, false]).flatten ++ [false, true])) := rfl
  have e1 : SEL_SQ (m + 1) = true :: false ::
      ((List.replicate (m + 1) [false, false]).flatten ++ [true]) := by
    rw [e0, cons_pad_reshape false false true m]
  have e2a : CLK_SQ p (m + 1) = p :: p ::
      ((!p) :: ((List.replicate m [p, !p]).flatten ++ [p, p])) := by
    rw [CLK_SQ_eq]
    rfl
  have e2 : CLK_SQ p (m + 1) = p :: p ::
      ((List.replicate (m + 1) [!p, p]).flatten ++ [p]) := by
    rw [e2a, cons_pad_reshape (!p) p p m]
  have e3 : DTO_SQ true data (m + 1) = false :: false ::
      (((pyBinPad data (m + 1)).map (fun c => [c, c])).flatten ++ [false]) := rfl
  have e4 : TRG_SQ true (m + 1) = false :: false ::
      ((List.replicate (m + 1) [false, true]).flatten ++ [false]) := rfl
  rw [e1, e2, e3, e4, zip4_cons, zip4_cons]
  generalize hbits : pyBinPad data (m + 1) = bits at h ⊢
  rw [← h, zip4_mid (!p) p bits [true] [p] [false] [false]]
  rfl

theorem transferLoop_cons_false (read : PortState → Nat → Bool)
    (sel clk dto : Bool) (rest : List (Bool × Bool × Bool × Bool))
    (i : Nat) (st : PortState) (acc : List Bool) :
    transferLoop read ((sel, clk, dto, false) :: rest) i st acc =
      transferLoop read rest (i + 1) ⟨dto, clk, sel⟩ acc := rfl

theorem transfer_fst (cpol cpha : Bool) (w data : Nat)
    (read : PortState → Nat → Bool) (st0 : PortState) :
    (transfer cpol cpha w data read st0).1 =
      if (transferLoop read
          (zip4 (SEL_SQ w) (CLK_SQ cpol w) (DTO_SQ cpha data w) (TRG_SQ cpha w))
          0 st0 []).1.isEmpty then none
      else some (bitsToNat (transferLoop read
          (zip4 (SEL_SQ w) (CLK_SQ cpol w) (DTO_SQ cpha data w) (TRG_SQ cpha w))
          0 st0 []).1) := rfl

/-! ### C1: loopback round trip -/

/-- C1: with the data-out line wired to the data-in line (every read
returns the level most recently written to data-out), `transfer`
returns the word it was given, for every word in `[0, 2^W)`, every
mode (CPOL, CPHA) and every width `W ≥ 1`. -/
theorem C1_loopback_roundtrip (cpol cpha : Bool) (w data : Nat)
    (hw : 1 ≤ w) (hd : data < 2 ^ w) (st0 : PortState) :
    (transfer cpol cpha w data loopbackRead st0).1 = some data := by
  obtain ⟨m, rfl⟩ : ∃ m, w = m + 1 := ⟨w - 1, by omega⟩
  have hlen := pyBinPad_length data (m + 1) hw hd
  have hval := bitsToNat_pyBinPad data (m + 1)
  have hne : (pyBinPad data (m + 1)).isEmpty = false := by
    cases hpb : pyBinPad data (m + 1) with
    | nil => rw [hpb] at hlen; simp at hlen
    | cons x xs => rfl
  rw [transfer_fst]
  cases cpha
  case false =>
    rw [zip4_seqs_cpha0 cpol data (m + 1) hlen, transferLoop_cons_false,
      transferLoop_append loopbackRead]
    obtain ⟨st2, hmid⟩ := transferLoop_mid_loopback cpol (!cpol)
      (pyBinPad data (m + 1)) (0 + 1) ⟨false, cpol, true⟩ []
    rw [hmid]
    have hall : ∀ t ∈ [(false, cpol, false, false), (true, cpol, false, false)],
        t.2.2.2 = false := by
      intro t ht
      simp only [List.mem_cons, List.not_mem_nil, or_false] at ht
      rcases ht with rfl | rfl
      · rfl
      · rfl
    have htail := transferLoop_no_trigger loopbackRead
      [(false, cpol, false, false), (true, cpol, false, false)] hall
    rw [htail, List.nil_append, hne, hval]
    simp
  case true =>
    rw [zip4_seqs_cpha1 cpol data m hlen, transferLoop_cons_false,
      transferLoop_cons_false, transferLoop_append loopbackRead]
    obtain ⟨st2, hmid⟩ := transferLoop_mid_loopback (!cpol) cpol
      (pyBinPad data (m + 1)) (0 + 1 + 1) ⟨false, cpol, false⟩ []
    rw [hmid]
    have hall : ∀ t ∈ [(true, cpol, false, false)], t.2.2.2 = false := by
      intro t ht
      simp only [List.mem_cons, List.not_mem_nil, or_false] at ht
      subst ht
      rfl
    have htail := transferLoop_no_trigger loopbackRead
      [(true, cpol, false, false)] hall
    rw [htail, List.nil_append, hne, hval]
    simp

/-- Witness for C1 at the spec's concrete examples: `W = 8`,
`data = 0x0F` and `data = 0xF0`, two of the four modes. -/
theorem C1_loopback_roundtrip_witness :
    1 ≤ 8 ∧ 15 < 2 ^ 8 ∧
      (transfer false false 8 15 loopbackRead ⟨false, false, true⟩).1 = some 15 ∧
      (transfer true true 8 240 loopbackRead ⟨false, false, true⟩).1 = some 240 :=
  ⟨by decide, by decide,
    C1_loopback_roundtrip false false 8 15 (by decide) (by decide) ⟨false, false, true⟩,
    C1_loopback_roundtrip true true 8 240 (by decide) (by decide) ⟨false, false, true⟩⟩

/-! ### C6: all four sequences have length 2W+3 -/

/-- C6: for every mode, every `W ≥ 1` and every in-range word, the four
synthesized sequences (chip-select, clock, data-out, sample-trigger)
all have length `L = 2·W + 3`. -/
theorem C6_sequence_lengths (cpol cpha : Bool) (w data : Nat)
    (hw : 1 ≤ w) (hd : data < 2 ^ w) :
    (SEL_SQ w).length = 2 * w + 3 ∧ (CLK_SQ cpol w).length = 2 * w + 3 ∧
    (DTO_SQ cpha data w).length = 2 * w + 3 ∧
    (TRG_SQ cpha w).length = 2 * w + 3 := by
  have hpb := pyBinPad_length data w hw hd
  refine ⟨?_, ?_, ?_, ?_⟩
  · simp only [SEL_SQ, List.length_append, flatten_replicate_pair_length,
      List.length_cons, List.length_nil]
    omega
  · cases cpol
    · simp only [CLK_SQ, Bool.false_eq_true, if_false, CLK_S0,
        List.length_append, flatten_replicate_pair_length, List.length_cons,
        List.length_nil]
      omega
    · simp only [CLK_SQ, if_true, CLK_S1, List.length_append,
        flatten_replicate_pair_length, List.length_cons, List.length_nil]
      omega
  · cases cpha
    · simp only [DTO_SQ, Bool.false_eq_true, if_false, DTO_S0, DTO_str,
        List.length_append, flatten_map_dup_length, hpb, List.length_cons,
        List.length_nil]
      omega
    · simp only [DTO_SQ, if_true, DTO_S1, DTO_str, List.length_append,
        flatten_map_dup_length, hpb, List.length_cons, List.length_nil]
      omega
  · cases cpha
    · simp only [TRG_SQ, Bool.false_eq_true, if_false, TRG_S0, TRG,
        List.length_append, flatten_replicate_pair_length, List.length_cons,
        List.length_nil]
      omega
    · simp only [TRG_SQ, if_true, TRG_S1, TRG, List.length_append,
        flatten_replicate_pair_length, List.length_cons, List.length_nil]
      omega

/-- Witness for C6 at `W = 8`, `data = 0x0F`, mode (1, 0). -/
theorem C6_sequence_lengths_witness :
    1 ≤ 8 ∧ 15 < 2 ^ 8 ∧
      ((SEL_SQ 8).length = 2 * 8 + 3 ∧ (CLK_SQ true 8).length = 2 * 8 + 3 ∧
       (DTO_SQ false 15 8).length = 2 * 8 + 3 ∧
       (TRG_SQ false 8).length = 2 * 8 + 3) :=
  ⟨by decide, by decide, C6_sequence_lengths true false 8 15 (by decide) (by decide)⟩

/-! ### C2: the chip-select window -/

/-- C2 counterexample: the claim says chip-select is inactive (high) at
index `2W+1`; at `W = 1` index `2W+1 = 3` the synthesized chip-select
level is low (active). -/
theorem C2_counterexample : (SEL_SQ 1)[3]? = some false := by decide

/-- C2 amended: chip-select is inactive (high) at index 0, active (low)
at every index `1..2W+1` inclusive, and inactive (high) again only at
the final index `2W+2`. -/
theorem C2_chipselect_window (w : Nat) :
    (SEL_SQ w)[0]? = some true ∧
    (∀ i, 1 ≤ i → i ≤ 2 * w + 1 → (SEL_SQ w)[i]? = some false) ∧
    (SEL_SQ w)[2 * w + 2]? = some true := by
  have hF := flatten_replicate_pair_length false false w
  have e : SEL_SQ w =
      true :: ((List.replicate w [false, false]).flatten ++ [false, true]) := rfl
  refine ⟨by rw [e, List.getElem?_cons_zero], ?_, ?_⟩
  · intro i h1 h2
    obtain ⟨j, rfl⟩ : ∃ j, i = j + 1 := ⟨i - 1, by omega⟩
    rw [e, List.getElem?_cons_succ]
    rcases Nat.lt_or_ge j (2 * w) with hj | hj
    · rw [List.getElem?_append_left (by rw [hF]; exact hj),
        flatten_replicate_pair_getElem]
      simp [hj]
    · have hj2 : j = 2 * w := by omega
      subst hj2
      rw [List.getElem?_append_right (by rw [hF])]
      have hz : 2 * w - ((List.replicate w [false, false]).flatten).length = 0 := by
        rw [hF]
        omega
      rw [hz]
      decide
  · rw [e, List.getElem?_cons_succ,
      List.getElem?_append_right (by rw [hF]; omega)]
    have hz : 2 * w + 1 - ((List.replicate w [false, false]).flatten).length = 1 := by
      rw [hF]
      omega
    rw [hz]
    decide

/-- Witness for C2's amended statement at `W = 2`, index 5 = 2W+1. -/
theorem C2_chipselect_window_witness :
    (1 ≤ 5 ∧ 5 ≤ 2 * 2 + 1) ∧ (SEL_SQ 2)[5]? = some false :=
  ⟨⟨by decide, by decide⟩, (C2_chipselect_window 2).2.1 5 (by decide) (by decide)⟩

/-! ### C3: there is no range check -/

theorem transfer_st_irrel (cpol cpha : Bool) (w data : Nat)
    (read : PortState → Nat → Bool) (st0 st1 : PortState) :
    transfer cpol cpha w data read st0 = transfer cpol cpha w data read st1 := by
  cases cpol <;> cases cpha <;> rfl

/-- C3 counterexample: at `W = 8` the out-of-range word 256 raises
nothing; the transfer runs to completion and (under loopback) returns
128, the value of the top 8 digits of 256's 9-digit binary text. -/
theorem C3_counterexample :
    2 ^ 8 ≤ 256 ∧
    (transfer false false 8 256 loopbackRead ⟨false, false, true⟩).1 = some 128 := by
  constructor
  · decide
  · decide

/-- C3 amended: the code performs no range validation.  A word
`data ≥ 2^W` is accepted: the four sequences are synthesized with an
over-long data-out string, the zip truncates everything to the
chip-select length `2W+3`, the port I/O proceeds normally, and the call
returns a result; e.g. `transfer(256)` at `W = 8` under loopback
returns 128 for every mode and every initial port state. -/
theorem C3_no_range_check (cpol cpha : Bool) (st0 : PortState) :
    (transfer cpol cpha 8 256 loopbackRead st0).1 = some 128 := by
  rw [transfer_st_irrel cpol cpha 8 256 loopbackRead st0 ⟨false, false, true⟩]
  cases cpol <;> cases cpha <;> decide

/-! ### C5: there is no width validation -/

/-- C5 counterexample: nothing rejects a width below 1.  With `W = 0`
and `data = 3` the transfer itself runs: the three surviving
half-cycles are driven on the port (the data-out line is left high,
proving writes happened), no trigger ever fires, and the final
`int("", 2)` fails — an error at transfer time, not construction
time. -/
theorem C5_counterexample :
    transfer false false 0 3 loopbackRead ⟨false, false, true⟩ =
      (none, ⟨true, false, true⟩) := by decide

/-- C5 amended: the code never validates the bit width and has no
configuration error.  With `W = 0` the transfer is attempted anyway:
the zip truncates to the 3 chip-select half-cycles, all of them are
driven on the port, no sample trigger fires, and the final parse of the
empty digit string fails (the `ValueError` of `int("", 2)`), i.e. the
failure happens at transfer time, after port I/O. -/
theorem C5_no_width_validation (cpol cpha : Bool) (data : Nat)
    (st0 : PortState) :
    (transfer cpol cpha 0 data loopbackRead st0).1 = none := by
  obtain ⟨d, rest, hpb⟩ : ∃ d rest, pyBinPad data 0 = d :: rest := by
    cases h : pyBinPad data 0 with
    | nil =>
      have h1 := pyBinDigits_length_pos data
      have h2 : (pyBinPad data 0).length = 0 := by rw [h]; rfl
      unfold pyBinPad at h2
      simp only [List.length_append, List.length_replicate] at h2
      omega
    | cons d rest => exact ⟨d, rest, rfl⟩
  cases cpha
  case false =>
    have e3 : DTO_SQ false data 0 = false :: d :: d ::
        (((rest.map (fun c => [c, c])).flatten) ++ [false, false]) := by
      show DTO_S0 data 0 = _
      rw [DTO_S0, DTO_str, hpb]
      rfl
    cases cpol
    · rw [transfer_fst, e3]
      rfl
    · rw [transfer_fst, e3]
      rfl
  case true =>
    have e3 : DTO_SQ true data 0 = false :: false :: d :: d ::
        (((rest.map (fun c => [c, c])).flatten) ++ [false]) := by
      show DTO_S1 data 0 = _
      rw [DTO_S1, DTO_str, hpb]
      rfl
    cases cpol
    · rw [transfer_fst, e3]
      rfl
    · rw [transfer_fst, e3]
      rfl

/-! ### C4: a port failure leaves chip-select active -/

theorem pyBinPad_cons (data w : Nat) :
    ∃ d rest, pyBinPad data w = d :: rest := by
  cases h : pyBinPad data w with
  | nil =>
    have h1 := pyBinDigits_length_pos data
    have h2 : (pyBinPad data w).length = 0 := by rw [h]; rfl
    unfold pyBinPad at h2
    simp only [List.length_append, List.length_replicate] at h2
    omega
  | cons d rest => exact ⟨d, rest, rfl⟩

theorem transferFail_eq (cpol cpha : Bool) (w data : Nat)
    (read : PortState → Nat → Bool) (failAt : Nat) (st0 : PortState) :
    transferFail cpol cpha w data read failAt st0 =
      match transferFailLoop read failAt
          (zip4 (SEL_SQ w) (CLK_SQ cpol w) (DTO_SQ cpha data w) (TRG_SQ cpha w))
          0 0 st0 [] with
      | .error st => .error st
      | .ok (acc, st) =>
        .ok (if acc.isEmpty then none else some (bitsToNat acc), st) := rfl

/-- C4 counterexample: make the twelfth pin operation (the MISO read of
half-cycle index 2, inside the active window) fail; the error
propagates with chip-select still low (active) — the engine performs no
chip-select restoration before the error reaches the caller. -/
theorem C4_counterexample :
    csOnError (transferFail false false 1 0 loopbackRead 11 ⟨false, false, true⟩) =
      some false := by decide

/-- C4 amended: a port failure aborts the transfer immediately, but the
underlying error propagates as-is (nothing rewraps it) and the
chip-select line keeps its last-written level — a failure inside the
active window (here: the read of half-cycle index 2) leaves chip-select
active (low), for every mode, width `W ≥ 1`, word and initial state. -/
theorem C4_no_cs_restore (cpol cpha : Bool) (w data : Nat) (st0 : PortState)
    (hw : 1 ≤ w) :
    csOnError (transferFail cpol cpha w data loopbackRead 11 st0) = some false := by
  obtain ⟨m, rfl⟩ : ∃ m, w = m + 1 := ⟨w - 1, by omega⟩
  obtain ⟨d, rest, hpb⟩ := pyBinPad_cons data (m + 1)
  cases cpha
  case false =>
    have e3 : DTO_SQ false data (m + 1) = false :: d :: d ::
        (((rest.map (fun c => [c, c])).flatten) ++ [false, false]) := by
      show DTO_S0 data (m + 1) = _
      rw [DTO_S0, DTO_str, hpb]
      rfl
    cases cpol
    · rw [transferFail_eq, e3]
      rfl
    · rw [transferFail_eq, e3]
      rfl
  case true =>
    have e3 : DTO_SQ true data (m + 1) = false :: false :: d :: d ::
        (((rest.map (fun c => [c, c])).flatten) ++ [false]) := by
      show DTO_S1 data (m + 1) = _
      rw [DTO_S1, DTO_str, hpb]
      rfl
    cases cpol
    · rw [transferFail_eq, e3]
      rfl
    · rw [transferFail_eq, e3]
      rfl

/-- Witness for C4's amended statement at mode (1,0), `W = 2`. -/
theorem C4_no_cs_restore_witness :
    1 ≤ 2 ∧
      csOnError (transferFail true false 2 1 loopbackRead 11 ⟨false, false, true⟩) =
        some false :=
  ⟨by decide, C4_no_cs_restore true false 2 1 ⟨false, false, true⟩ (by decide)⟩

/-! ### C7: the sample trigger fires once per bit period, on the
active clock half -/

theorem tail2_no_true (x : Nat) :
    ¬ (([false, false] : List Bool)[x]? = some true) := by
  match x with
  | 0 => decide
  | 1 => decide
  | x + 2 =>
    have h : (([false, false] : List Bool)).length ≤ x + 2 := by simp
    rw [List.getElem?_len_le h]
    simp

theorem tail1_no_true (x : Nat) :
    ¬ (([false] : List Bool)[x]? = some true) := by
  match x with
  | 0 => decide
  | x + 1 =>
    have h : (([false] : List Bool)).length ≤ x + 1 := by simp
    rw [List.getElem?_len_le h]
    simp

theorem TRG_S0_true_iff (w i : Nat) :
    ((TRG_S0 w)[i]? = some true) ↔ ∃ k, 1 ≤ k ∧ k ≤ w ∧ i = 2 * k := by
  have hJ := flatten_replicate_pair_length false true w
  have e : TRG_S0 w = false ::
      ((List.replicate w [false, true]).flatten ++ [false, false]) := rfl
  rw [e]
  cases i with
  | zero =>
    rw [List.getElem?_cons_zero]
    constructor
    · intro h
      simp at h
    · rintro ⟨k, hk1, hk2, hk3⟩
      omega
  | succ j =>
    rw [List.getElem?_cons_succ]
    rcases Nat.lt_or_ge j (2 * w) with hj | hj
    · rw [List.getElem?_append_left (by rw [hJ]; exact hj),
        flatten_replicate_pair_getElem, if_pos hj]
      constructor
      · intro h
        have hodd : ¬ (j % 2 = 0) := by
          intro h0
          rw [if_pos h0] at h
          simp at h
        refine ⟨(j + 1) / 2, by omega, by omega, by omega⟩
      · rintro ⟨k, hk1, hk2, hk3⟩
        rw [if_neg (by omega)]
    · rw [List.getElem?_append_right (by rw [hJ]; omega)]
      constructor
      · intro h
        exact absurd h (tail2_no_true _)
      · rintro ⟨k, hk1, hk2, hk3⟩
        omega

theorem TRG_S1_true_iff (w i : Nat) :
    ((TRG_S1 w)[i]? = some true) ↔ ∃ k, 1 ≤ k ∧ k ≤ w ∧ i = 2 * k + 1 := by
  have hJ := flatten_replicate_pair_length false true w
  have e : TRG_S1 w = false :: false ::
      ((List.replicate w [false, true]).flatten ++ [false]) := rfl
  rw [e]
  match i with
  | 0 =>
    rw [List.getElem?_cons_zero]
    constructor
    · intro h
      simp at h
    · rintro ⟨k, hk1, hk2, hk3⟩
      omega
  | 1 =>
    rw [List.getElem?_cons_succ, List.getElem?_cons_zero]
    constructor
    · intro h
      simp at h
    · rintro ⟨k, hk1, hk2, hk3⟩
      omega
  | j + 2 =>
    rw [List.getElem?_cons_succ, List.getElem?_cons_succ]
    rcases Nat.lt_or_ge j (2 * w) with hj | hj
    · rw [List.getElem?_append_left (by rw [hJ]; exact hj),
        flatten_replicate_pair_getElem, if_pos hj]
      constructor
      · intro h
        have hodd : ¬ (j % 2 = 0) := by
          intro h0
          rw [if_pos h0] at h
          simp at h
        refine ⟨(j + 1) / 2, by omega, by omega, by omega⟩
      · rintro ⟨k, hk1, hk2, hk3⟩
        rw [if_neg (by omega)]
    · rw [List.getElem?_append_right (by rw [hJ]; omega)]
      constructor
      · intro h
        exact absurd h (tail1_no_true _)
      · rintro ⟨k, hk1, hk2, hk3⟩
        omega

theorem TRG_S0_count (w : Nat) : (TRG_S0 w).count true = w := by
  simp [TRG_S0, TRG, List.count_append, List.count_cons,
    TRG_flatten_count w]

theorem TRG_S1_count (w : Nat) : (TRG_S1 w).count true = w := by
  simp [TRG_S1, TRG, List.count_append, List.count_cons,
    TRG_flatten_count w]

theorem CLK_SQ_at_even (p : Bool) (w k : Nat) (h1 : 1 ≤ k) (h2 : k ≤ w) :
    (CLK_SQ p w)[2 * k]? = some (!p) := by
  have hJ := flatten_replicate_pair_length p (!p) w
  have e : CLK_SQ p w =
      p :: ((List.replicate w [p, !p]).flatten ++ [p, p]) := by
    rw [CLK_SQ_eq]
    rfl
  have hidx : 2 * k = (2 * k - 1) + 1 := by omega
  rw [e, hidx, List.getElem?_cons_succ,
    List.getElem?_append_left (by rw [hJ]; omega),
    flatten_replicate_pair_getElem, if_pos (by omega), if_neg (by omega)]

theorem CLK_SQ_at_odd (p : Bool) (w k : Nat) (_h1 : 1 ≤ k) (h2 : k ≤ w) :
    (CLK_SQ p w)[2 * k + 1]? = some p := by
  have hJ := flatten_replicate_pair_length p (!p) w
  have e : CLK_SQ p w =
      p :: ((List.replicate w [p, !p]).flatten ++ [p, p]) := by
    rw [CLK_SQ_eq]
    rfl
  rw [e, List.getElem?_cons_succ]
  rcases Nat.lt_or_ge k w with hk | hk
  · rw [List.getElem?_append_left (by rw [hJ]; omega),
      flatten_replicate_pair_getElem]
    rw [if_pos (show 2 * k < 2 * w by omega)]
    rw [if_pos (show 2 * k % 2 = 0 by omega)]
  · have hk2 : k = w := by omega
    subst hk2
    rw [List.getElem?_append_right (by rw [hJ])]
    have hz : 2 * k - ((List.replicate k [p, !p]).flatten).length = 0 := by
      rw [flatten_replicate_pair_length]
      omega
    rw [hz, List.getElem?_cons_zero]

/-- C7: for every mode and `W ≥ 1` the sample-trigger sequence has
exactly `W` set positions; a position is set exactly when it is the
sampling half-cycle `2k + CPHA` of bit period `k` (`k = 1..W`), one per
period; and at every set position the clock line holds the level of the
active sampling half dictated by (CPOL, CPHA): `¬CPOL` for CPHA = 0,
`CPOL` for CPHA = 1. -/
theorem C7_sample_trigger (cpol cpha : Bool) (w : Nat) (_hw : 1 ≤ w) :
    (TRG_SQ cpha w).count true = w ∧
    (∀ i : Nat, ((TRG_SQ cpha w)[i]? = some true ↔
      ∃ k, 1 ≤ k ∧ k ≤ w ∧ i = 2 * k + (if cpha then 1 else 0))) ∧
    (∀ i : Nat, (TRG_SQ cpha w)[i]? = some true →
      (CLK_SQ cpol w)[i]? = some (if cpha then cpol else !cpol)) := by
  cases cpha
  case false =>
    refine ⟨TRG_S0_count w, ?_, ?_⟩
    · intro i
      simp only [Bool.false_eq_true, if_false, Nat.add_zero]
      exact TRG_S0_true_iff w i
    · intro i h
      obtain ⟨k, hk1, hk2, rfl⟩ := (TRG_S0_true_iff w i).mp h
      simpa using CLK_SQ_at_even cpol w k hk1 hk2
  case true =>
    refine ⟨TRG_S1_count w, ?_, ?_⟩
    · intro i
      simp only [if_true]
      exact TRG_S1_true_iff w i
    · intro i h
      obtain ⟨k, hk1, hk2, rfl⟩ := (TRG_S1_true_iff w i).mp h
      simpa using CLK_SQ_at_odd cpol w k hk1 hk2

/-- Witness for C7 at mode (0,0), `W = 1`: the only trigger is at
index 2, where the clock is high (= ¬CPOL). -/
theorem C7_sample_trigger_witness :
    1 ≤ 1 ∧ (TRG_SQ false 1)[2]? = some true ∧
      (CLK_SQ false 1)[2]? = some (if false then false else !false) :=
  ⟨by decide, by decide,
    (C7_sample_trigger false false 1 (by decide)).2.2 2 (by decide)⟩

/-! ### C8: the data-out sequence -/

/-- C8: the data-out sequence carries the output word's `W` bits
MSB-first, each held over two consecutive half-cycles; CPHA = 0 pads
with 1 leading and 2 trailing idle half-cycles, CPHA = 1 with 2 leading
and 1 trailing; and for `W = 8`, `data = 0b00001111` the doubled
active-window bits are `0000000011111111`. -/
theorem C8_dataout_shape (w data : Nat) (hw : 1 ≤ w) (hd : data < 2 ^ w) :
    ((DTO_SQ false data w)[0]? = some false ∧
     (∀ j : Nat, j < w →
        (DTO_SQ false data w)[2 * j + 1]? = some (data.testBit (w - 1 - j)) ∧
        (DTO_SQ false data w)[2 * j + 2]? = some (data.testBit (w - 1 - j))) ∧
     (DTO_SQ false data w)[2 * w + 1]? = some false ∧
     (DTO_SQ false data w)[2 * w + 2]? = some false) ∧
    ((DTO_SQ true data w)[0]? = some false ∧
     (DTO_SQ true data w)[1]? = some false ∧
     (∀ j : Nat, j < w →
        (DTO_SQ true data w)[2 * j + 2]? = some (data.testBit (w - 1 - j)) ∧
        (DTO_SQ true data w)[2 * j + 3]? = some (data.testBit (w - 1 - j))) ∧
     (DTO_SQ true data w)[2 * w + 2]? = some false) ∧
    DTO_str 15 8 = [false, false, false, false, false, false, false, false,
      true, true, true, true, true, true, true, true] := by
  have hD : (DTO_str data w).length = 2 * w := by
    rw [DTO_str, flatten_map_dup_length, pyBinPad_length data w hw hd]
  have e0 : DTO_SQ false data w = false :: (DTO_str data w ++ [false, false]) := rfl
  have e1 : DTO_SQ true data w =
      false :: false :: (DTO_str data w ++ [false]) := rfl
  have hdup : ∀ j : Nat, (DTO_str data w)[2 * j]? = (pyBinPad data w)[j]? ∧
      (DTO_str data w)[2 * j + 1]? = (pyBinPad data w)[j]? := by
    intro j
    exact flatten_map_dup_getElem (pyBinPad data w) j
  refine ⟨⟨?_, ?_, ?_, ?_⟩, ⟨?_, ?_, ?_, ?_⟩, by decide⟩
  · rw [e0, List.getElem?_cons_zero]
  · intro j hj
    constructor
    · rw [e0, List.getElem?_cons_succ,
        List.getElem?_append_left (by rw [hD]; omega), (hdup j).1,
        pyBinPad_getElem data w hw hd j hj]
    · have er : 2 * j + 2 = (2 * j + 1) + 1 := rfl
      rw [e0, er, List.getElem?_cons_succ,
        List.getElem?_append_left (by rw [hD]; omega), (hdup j).2,
        pyBinPad_getElem data w hw hd j hj]
  · rw [e0, List.getElem?_cons_succ,
      List.getElem?_append_right (by rw [hD])]
    have hz : 2 * w - (DTO_str data w).length = 0 := by
      rw [hD]
      omega
    rw [hz]
    decide
  · have er : 2 * w + 2 = (2 * w + 1) + 1 := rfl
    rw [e0, er, List.getElem?_cons_succ,
      List.getElem?_append_right (by rw [hD]; omega)]
    have hz : 2 * w + 1 - (DTO_str data w).length = 1 := by
      rw [hD]
      omega
    rw [hz]
    decide
  · rw [e1, List.getElem?_cons_zero]
  · rw [e1, List.getElem?_cons_succ, List.getElem?_cons_zero]
  · intro j hj
    constructor
    · have er : 2 * j + 2 = ((2 * j) + 1) + 1 := rfl
      rw [e1, er, List.getElem?_cons_succ, List.getElem?_cons_succ,
        List.getElem?_append_left (by rw [hD]; omega), (hdup j).1,
        pyBinPad_getElem data w hw hd j hj]
    · have er : 2 * j + 3 = ((2 * j + 1) + 1) + 1 := rfl
      rw [e1, er, List.getElem?_cons_succ, List.getElem?_cons_succ,
        List.getElem?_append_left (by rw [hD]; omega), (hdup j).2,
        pyBinPad_getElem data w hw hd j hj]
  · have er : 2 * w + 2 = ((2 * w) + 1) + 1 := rfl
    rw [e1, er, List.getElem?_cons_succ, List.getElem?_cons_succ,
      List.getElem?_append_right (by rw [hD])]
    have hz : 2 * w - (DTO_str data w).length = 0 := by
      rw [hD]
      omega
    rw [hz]
    decide

/-- Witness for C8 at `W = 8`, `data = 0b00001111`: the first data
half-cycle of the CPHA = 0 sequence carries bit 7 of the word. -/
theorem C8_dataout_shape_witness :
    (1 ≤ 8 ∧ 15 < 2 ^ 8 ∧ 0 < 8) ∧
      (DTO_SQ false 15 8)[1]? = some ((15 : Nat).testBit 7) :=
  ⟨⟨by decide, by decide, by decide⟩,
    ((C8_dataout_shape 8 15 (by decide) (by decide)).1.2.1 0 (by decide)).1⟩

/-! ### C9: a completed transfer samples exactly W bits -/

/-- C9: whatever level sequence the port's reads return, a completed
transfer of an in-range word records exactly `W` sampled levels — the
ones read at the trigger half-cycles `2k + 2 + CPHA` (`k = 0..W-1`) —
and returns their MSB-first value, which is always below `2^W`. -/
theorem C9_result_range (cpol cpha : Bool) (w data : Nat)
    (ins : Nat → Bool) (st0 : PortState) (hw : 1 ≤ w) (hd : data < 2 ^ w) :
    (transfer cpol cpha w data (fun _ j => ins j) st0).1 =
      some (bitsToNat ((List.range w).map
        (fun k => ins (2 * k + 2 + (if cpha then 1 else 0))))) ∧
    ((List.range w).map
        (fun k => ins (2 * k + 2 + (if cpha then 1 else 0)))).length = w ∧
    bitsToNat ((List.range w).map
        (fun k => ins (2 * k + 2 + (if cpha then 1 else 0)))) < 2 ^ w := by
  obtain ⟨m, rfl⟩ : ∃ m, w = m + 1 := ⟨w - 1, by omega⟩
  have hlen := pyBinPad_length data (m + 1) hw hd
  have hllen : ((List.range (m + 1)).map
      (fun k => ins (2 * k + 2 + (if cpha then 1 else 0)))).length = m + 1 := by
    simp
  refine ⟨?_, hllen, ?_⟩
  swap
  · have hb := bitsToNat_lt ((List.range (m + 1)).map
      (fun k => ins (2 * k + 2 + (if cpha then 1 else 0))))
    rw [hllen] at hb
    exact hb
  · rw [transfer_fst]
    cases cpha
    case false =>
      rw [zip4_seqs_cpha0 cpol data (m + 1) hlen, transferLoop_cons_false,
        transferLoop_append]
      obtain ⟨st2, hmid⟩ := transferLoop_mid_reads cpol (!cpol) ins
        (pyBinPad data (m + 1)) (0 + 1) ⟨false, cpol, true⟩ []
      rw [hmid]
      have hall : ∀ t ∈ [(false, cpol, false, false), (true, cpol, false, false)],
          t.2.2.2 = false := by
        intro t ht
        simp only [List.mem_cons, List.not_mem_nil, or_false] at ht
        rcases ht with rfl | rfl
        · rfl
        · rfl
      have htail := transferLoop_no_trigger (fun _ j => ins j)
        [(false, cpol, false, false), (true, cpol, false, false)] hall
      rw [htail, List.nil_append]
      have hmap : (List.range (pyBinPad data (m + 1)).length).map
          (fun k => ins (0 + 1 + 2 * k + 1)) =
          (List.range (m + 1)).map
            (fun k => ins (2 * k + 2 + (if false then 1 else 0))) := by
        rw [hlen]
        apply List.map_congr_left
        intro k _
        congr 1
        show 0 + 1 + 2 * k + 1 = 2 * k + 2 + 0
        omega
      rw [hmap]
      have hne2 : ((List.range (m + 1)).map
          (fun k => ins (2 * k + 2 + (if false then 1 else 0)))).isEmpty = false := by
        cases h : (List.range (m + 1)).map
            (fun k => ins (2 * k + 2 + (if false then 1 else 0))) with
        | nil =>
          have h2 : ((List.range (m + 1)).map
              (fun k => ins (2 * k + 2 + (if false then 1 else 0)))).length = 0 := by
            rw [h]
            rfl
          simp at h2
        | cons a l => rfl
      rw [hne2]
      simp
    case true =>
      rw [zip4_seqs_cpha1 cpol data m hlen, transferLoop_cons_false,
        transferLoop_cons_false, transferLoop_append]
      obtain ⟨st2, hmid⟩ := transferLoop_mid_reads (!cpol) cpol ins
        (pyBinPad data (m + 1)) (0 + 1 + 1) ⟨false, cpol, false⟩ []
      rw [hmid]
      have hall : ∀ t ∈ [(true, cpol, false, false)], t.2.2.2 = false := by
        intro t ht
        simp only [List.mem_cons, List.not_mem_nil, or_false] at ht
        subst ht
        rfl
      have htail := transferLoop_no_trigger (fun _ j => ins j)
        [(true, cpol, false, false)] hall
      rw [htail, List.nil_append]
      have hmap : (List.range (pyBinPad data (m + 1)).length).map
          (fun k => ins (0 + 1 + 1 + 2 * k + 1)) =
          (List.range (m + 1)).map
            (fun k => ins (2 * k + 2 + (if true then 1 else 0))) := by
        rw [hlen]
        apply List.map_congr_left
        intro k _
        congr 1
        show 0 + 1 + 1 + 2 * k + 1 = 2 * k + 2 + 1
        omega
      rw [hmap]
      have hne2 : ((List.range (m + 1)).map
          (fun k => ins (2 * k + 2 + (if true then 1 else 0)))).isEmpty = false := by
        cases h : (List.range (m + 1)).map
            (fun k => ins (2 * k + 2 + (if true then 1 else 0))) with
        | nil =>
          have h2 : ((List.range (m + 1)).map
              (fun k => ins (2 * k + 2 + (if true then 1 else 0)))).length = 0 := by
            rw [h]
            rfl
          simp at h2
        | cons a l => rfl
      rw [hne2]
      simp

/-- Witness for C9 at mode (0,1), `W = 4`, `data = 9`, with the port
reads returning high exactly at multiples of 3: the triggers are at
indices 3, 5, 7, 9, so the sampled word is 1000b = 8. -/
theorem C9_result_range_witness :
    (1 ≤ 4 ∧ 9 < 2 ^ 4) ∧
      (transfer false true 4 9 (fun _ j => decide (j % 3 = 0))
        ⟨false, false, true⟩).1 =
        some (bitsToNat ((List.range 4).map
          (fun k => decide ((2 * k + 2 + (if true then 1 else 0)) % 3 = 0)))) :=
  ⟨⟨by decide, by decide⟩,
    (C9_result_range false true 4 9 (fun j => decide (j % 3 = 0))
      ⟨false, false, true⟩ (by decide) (by decide)).1⟩

/-! ### C10: the shipped debug configuration is silent -/

/-- C10: whenever `"NONE"` is in the module debug list, `_debug`
returns False for every argument list; consequently, under the shipped
configuration (`_DEBUG = ["NONE"]`) a transfer performs no
inter-half-cycle delay and prints no diagnostics. -/
theorem C10_debug_none (cpol cpha : Bool) (w data : Nat) :
    (∀ dbg flags : List String, dbg.contains "NONE" = true →
      debugWith dbg flags = false) ∧
    transferDelayCount DEBUG_DEFAULT cpol cpha w data = 0 ∧
    transferPrints DEBUG_DEFAULT = false := by
  refine ⟨?_, ?_, by decide⟩
  · intro dbg flags h
    unfold debugWith
    rw [if_pos h]
  · unfold transferDelayCount
    rw [if_neg (by decide)]

/-- Witness for C10: a list containing `"NONE"` (even alongside other
flags) makes the debug check fail for a nonempty flag query. -/
theorem C10_debug_none_witness :
    (["NONE", "TRACE"].contains "NONE" = true) ∧
      debugWith ["NONE", "TRACE"] ["DELAY", "TRACE"] = false :=
  ⟨by decide,
    (C10_debug_none false false 0 0).1 ["NONE", "TRACE"] ["DELAY", "TRACE"]
      (by decide)⟩
